import Mathlib

/-!
Shallow embedding of the timing core of the CodyBPM metronome
(src/src/App.tsx, first application variant).

The mutable React refs that implement the timing core are collected into
explicit state records, and each callback of the source becomes a state
transition function:

* SchedState — the refs owned by the scheduler loop: currentBeatRef,
  measureInCycleRef, totalMeasuresRef, currentBpmRef, nextNoteTimeRef.
* advanceRefs / schedTick — one iteration of the while-loop body of
  scheduleNote: emit a click at the cursor, advance the beat counter
  with measure wrap and tempo bump, then advance the cursor by
  60 / currentBpmRef (read after the bump, as in the source).
* schedLoop — the while-loop of scheduleNote for one timer wake-up
  (ctx.currentTime modeled as a constant during the callback, fuel for
  termination); runWakes — a sequence of wake-ups.
* AppState and startApp / pauseApp / stopApp / scheduleNoteApp /
  animateWaveformStep / fireDeferred — the transport callbacks, the
  waveform animation frame and the deferred setTimeout UI updates.

Audio-clock timestamps are modeled as exact rationals; the source uses
IEEE doubles, whose rounding is not modeled.
-/

namespace CodyBPM

/-- Increment values of the INCREMENTS table in App.tsx. -/
def INCREMENTS : List Nat := [5, 10, 15]

def BEATS_PER_MEASURE : Nat := 4

def MEASURES_PER_BUMP : Nat := 4

def MAX_BPM : Nat := 300

def DEFAULT_BPM : Nat := 60

/-- The ECG waveform template (row offsets), from App.tsx. -/
def ECG_WAVE : List Int := [0, 0, 0, 0, 1, 1, 0, 0, -1, -6, 6, -2, 0, 0, 1, 2, 1, 0, 0, 0, 0, 0, 0, 0]

/-- The 0.1 s lookahead window of scheduleNote. -/
def lookahead : ℚ := 1 / 10

/-- The scheduler-owned refs: currentBeatRef, measureInCycleRef,
totalMeasuresRef, currentBpmRef, nextNoteTimeRef. -/
structure SchedState where
  currentBeat : Nat
  measureInCycle : Nat
  totalMeasures : Nat
  bpm : Nat
  nextNoteTime : ℚ
deriving DecidableEq

/-- One emitted audio click: its audio-clock timestamp and whether it is
the downbeat timbre (beat === 0 in the source). -/
structure Click where
  time : ℚ
  isDownbeat : Bool
deriving DecidableEq

/-- The ref updates of one scheduleNote loop iteration (the block from
`const nextBeat = beat + 1` to the end of the if/else): wrap the beat
modulo BEATS_PER_MEASURE; on wrap bump the measure counters and, when
measureInCycle reaches MEASURES_PER_BUMP, reset it and clamp-add the
increment to the BPM. -/
def advanceRefs (inc : Nat) (s : SchedState) : SchedState :=
  if BEATS_PER_MEASURE ≤ s.currentBeat + 1 then
    if MEASURES_PER_BUMP ≤ s.measureInCycle + 1 then
      { s with currentBeat := 0, measureInCycle := 0,
               totalMeasures := s.totalMeasures + 1,
               bpm := min (s.bpm + inc) MAX_BPM }
    else
      { s with currentBeat := 0, measureInCycle := s.measureInCycle + 1,
               totalMeasures := s.totalMeasures + 1 }
  else
    { s with currentBeat := s.currentBeat + 1 }

/-- One full iteration of the scheduleNote while-loop: the click is
emitted at the current cursor (playClick), the refs advance, and the
cursor advances by 60 / currentBpmRef, where currentBpmRef is read
AFTER the possible tempo bump — exactly the source order. -/
def schedTick (inc : Nat) (s : SchedState) : SchedState × Click :=
  ({ advanceRefs inc s with
     nextNoteTime := s.nextNoteTime + 60 / ((advanceRefs inc s).bpm : ℚ) },
   { time := s.nextNoteTime, isDownbeat := s.currentBeat == 0 })

/-- The condition under which the source applies a tempo bump in a loop
iteration: the beat wraps (nextBeat >= BEATS_PER_MEASURE) and the
incremented measureInCycle reaches MEASURES_PER_BUMP. -/
def bumpFires (s : SchedState) : Prop :=
  BEATS_PER_MEASURE ≤ s.currentBeat + 1 ∧ MEASURES_PER_BUMP ≤ s.measureInCycle + 1

instance (s : SchedState) : Decidable (bumpFires s) := by
  unfold bumpFires; infer_instance

/-- The scheduler state produced by a fresh start(): beat, measure and
total counters zeroed, cursor anchored at the audio clock. -/
def freshSched (bpm : Nat) (t0 : ℚ) : SchedState :=
  { currentBeat := 0, measureInCycle := 0, totalMeasures := 0,
    bpm := bpm, nextNoteTime := t0 }

/-- n iterations of the scheduleNote loop body from state s. -/
def runTicks (inc : Nat) (s : SchedState) : Nat → SchedState
  | 0 => s
  | n + 1 => (schedTick inc (runTicks inc s n)).1

/-- The audio-clock timestamp at which the n-th click (0-indexed) of a
run is emitted: the cursor value just before the n-th iteration. -/
def emitTime (inc : Nat) (s : SchedState) (n : Nat) : ℚ :=
  (runTicks inc s n).nextNoteTime

/-- The while-loop of one scheduleNote wake-up: iterate while the cursor
is inside the lookahead window past `now` (ctx.currentTime), collecting
the emitted clicks.  Fuel bounds the iteration count. -/
def schedLoop (inc : Nat) (now : ℚ) : Nat → SchedState → SchedState × List Click
  | 0, s => (s, [])
  | fuel + 1, s =>
    if s.nextNoteTime < now + lookahead then
      let r := schedTick inc s
      let rest := schedLoop inc now fuel r.1
      (rest.1, r.2 :: rest.2)
    else
      (s, [])

/-- A sequence of scheduler wake-ups at the given audio-clock times,
concatenating the clicks they emit. -/
def runWakes (inc fuel : Nat) : List ℚ → SchedState → SchedState × List Click
  | [], s => (s, [])
  | now :: rest, s =>
    let r := schedLoop inc now fuel s
    let r2 := runWakes inc fuel rest r.1
    (r2.1, r.2 ++ r2.2)

/-- Session configuration read by start()/stop(): the parsed Start BPM
input (parseInt(startBpmInput, 10) || DEFAULT_BPM) and the selected
increment. -/
structure Config where
  startBpm : Int
  increment : Nat
deriving DecidableEq

/-- Math.min(Math.max(startBpm, 1), MAX_BPM) from start(), stored as the
natural-number BPM ref value. -/
def clampBpm (sb : Int) : Nat := (min (max sb 1) (MAX_BPM : Int)).toNat

/-- The application state visible to the claims: transport flags, the
audio context and timers, the scheduler refs, the displayed (React
useState) counters, and the waveform phase refs. -/
structure AppState where
  isPlaying : Bool
  isPaused : Bool
  hasCtx : Bool
  timerSet : Bool
  animFrameSet : Bool
  sched : SchedState
  dispBeat : Int
  dispBpm : Int
  dispMeasureInCycle : Nat
  dispTotalMeasures : Nat
  wavePhase : ℚ
  lastFrameTime : ℚ
deriving DecidableEq

/-- start(): no-op while playing and not paused; resume branch while
paused (re-anchor the cursor to ctx.currentTime, clear the pause flag);
otherwise a fresh start (new context, refs reset, BPM clamped, waveform
phase reset to 0).  The scheduleNote() call it makes is modeled
separately as scheduleNoteApp. -/
def startApp (cfg : Config) (now frameNow : ℚ) (s : AppState) : AppState :=
  if s.isPlaying && !s.isPaused then s
  else if s.isPaused && s.hasCtx then
    { s with isPaused := false,
             sched := { s.sched with nextNoteTime := now },
             lastFrameTime := frameNow }
  else
    { s with isPlaying := true, isPaused := false, hasCtx := true,
             sched := freshSched (clampBpm cfg.startBpm) now,
             dispBeat := -1, dispMeasureInCycle := 0, dispTotalMeasures := 0,
             dispBpm := (clampBpm cfg.startBpm : Int),
             wavePhase := 0, lastFrameTime := frameNow }

/-- pause(): no-op unless playing and not paused; otherwise set the
pause flag, clear the coarse timer and cancel the animation frame. -/
def pauseApp (s : AppState) : AppState :=
  if !s.isPlaying || s.isPaused then s
  else
    { s with isPaused := true, timerSet := false, animFrameSet := false }

/-- stop(): unconditionally clear the transport flags, timer, animation
frame and audio context, and reset the displayed counters; the displayed
BPM is reset to the configured start value.  The scheduler refs are left
as they are (they are re-initialized by the next fresh start). -/
def stopApp (cfg : Config) (s : AppState) : AppState :=
  { s with isPlaying := false, isPaused := false, timerSet := false,
           hasCtx := false, animFrameSet := false,
           dispBeat := -1, dispMeasureInCycle := 0, dispTotalMeasures := 0,
           dispBpm := cfg.startBpm }

/-- One scheduleNote() invocation at audio-clock time `now`: a no-op
when there is no audio context or while paused (the entry guard of the
source); otherwise run the lookahead loop and re-arm the timer. -/
def scheduleNoteApp (inc fuel : Nat) (now : ℚ) (s : AppState) : AppState × List Click :=
  if !s.hasCtx || s.isPaused then (s, [])
  else
    let r := schedLoop inc now fuel s.sched
    ({ s with sched := r.1, timerSet := true }, r.2)

/-- One animateWaveform frame at wall-clock time `now` (ms): a no-op
unless playing and not paused; otherwise advance the phase by
elapsed * (ECG_WAVE.length * bpm) / 60000 and remember the frame time. -/
def animateWaveformStep (now : ℚ) (s : AppState) : AppState :=
  if !s.isPlaying || s.isPaused then s
  else
    { s with wavePhase := s.wavePhase +
               (now - s.lastFrameTime) * (((ECG_WAVE.length : ℚ) * (s.sched.bpm : ℚ)) / 60000),
             lastFrameTime := now }

/-- The three shapes of deferred setTimeout UI updates created by the
scheduleNote loop: the per-tick beat update, the bump update (BPM,
measureInCycle := 0, totalMeasures) and the plain measure update. -/
inductive Deferred
  | beatUpd (beat : Nat)
  | bumpUpd (newBpm totalMeasures : Nat)
  | measureUpd (measureInCycle totalMeasures : Nat)

/-- Firing one deferred update: every setTimeout body in scheduleNote
begins with `if (!isPlayingRef.current) return`, so the update applies
its payload to the displayed state only while the playing flag is set. -/
def fireDeferred (u : Deferred) (s : AppState) : AppState :=
  if !s.isPlaying then s
  else
    match u with
    | .beatUpd b => { s with dispBeat := (b : Int) }
    | .bumpUpd newBpm tm =>
        { s with dispBpm := (newBpm : Int), dispMeasureInCycle := 0,
                 dispTotalMeasures := tm }
    | .measureUpd mic tm =>
        { s with dispMeasureInCycle := mic, dispTotalMeasures := tm }

/-- Arithmetic progression of length k starting at t0 with step d;
used to describe the emitted timestamp sequence. -/
def arithSeq (t0 d : ℚ) : Nat → List ℚ
  | 0 => []
  | k + 1 => t0 :: arithSeq (t0 + d) d k

/-! ### Basic projection lemmas -/

theorem schedTick_fst_bpm (inc : Nat) (s : SchedState) :
    (schedTick inc s).1.bpm = (advanceRefs inc s).bpm := rfl

theorem schedTick_fst_nextNoteTime (inc : Nat) (s : SchedState) :
    (schedTick inc s).1.nextNoteTime
      = s.nextNoteTime + 60 / (((schedTick inc s).1.bpm : ℚ)) := rfl

theorem advanceRefs_bpm_of_bump (inc : Nat) (s : SchedState) (h : bumpFires s) :
    (advanceRefs inc s).bpm = min (s.bpm + inc) MAX_BPM := by
  unfold advanceRefs
  rw [if_pos h.1, if_pos h.2]

theorem advanceRefs_bpm_of_not_bump (inc : Nat) (s : SchedState) (h : ¬ bumpFires s) :
    (advanceRefs inc s).bpm = s.bpm := by
  unfold bumpFires at h
  unfold advanceRefs
  by_cases h1 : BEATS_PER_MEASURE ≤ s.currentBeat + 1
  · rw [if_pos h1]
    by_cases h2 : MEASURES_PER_BUMP ≤ s.measureInCycle + 1
    · exact absurd ⟨h1, h2⟩ h
    · rw [if_neg h2]
  · rw [if_neg h1]

theorem advanceRefs_bpm_bounds (inc : Nat) (s : SchedState) (h : s.bpm ≤ MAX_BPM) :
    s.bpm ≤ (advanceRefs inc s).bpm ∧ (advanceRefs inc s).bpm ≤ MAX_BPM := by
  by_cases hb : bumpFires s
  · rw [advanceRefs_bpm_of_bump inc s hb]
    unfold MAX_BPM at *
    omega
  · rw [advanceRefs_bpm_of_not_bump inc s hb]
    exact ⟨le_refl _, h⟩

theorem advanceRefs_bpm_pos (inc : Nat) (s : SchedState) (h : 1 ≤ s.bpm) :
    1 ≤ (advanceRefs inc s).bpm := by
  by_cases hb : bumpFires s
  · rw [advanceRefs_bpm_of_bump inc s hb]
    unfold MAX_BPM
    omega
  · rw [advanceRefs_bpm_of_not_bump inc s hb]
    exact h

/-! ### Claims C7, C8, C9, C10 -/

/-- Claim C7: invalid transport transitions are no-ops, not errors:
start() while playing and not paused, pause() while not playing or
already paused, and stop() while already stopped each produce no state
change beyond the first call; invoking the scheduler while paused, or
when no audio context exists, changes no state and emits no events. -/
theorem transport_invalid_noops :
    (∀ (cfg : Config) (now fn : ℚ) (s : AppState),
        s.isPlaying = true → s.isPaused = false → startApp cfg now fn s = s) ∧
    (∀ s : AppState, s.isPlaying = false ∨ s.isPaused = true → pauseApp s = s) ∧
    (∀ (cfg : Config) (s : AppState), stopApp cfg (stopApp cfg s) = stopApp cfg s) ∧
    (∀ (inc fuel : Nat) (now : ℚ) (s : AppState),
        s.isPaused = true ∨ s.hasCtx = false →
        scheduleNoteApp inc fuel now s = (s, [])) := by
  refine ⟨?_, ?_, ?_, ?_⟩
  · intro cfg now fn s hp hq
    simp [startApp, hp, hq]
  · intro s h
    rcases h with h | h <;> simp [pauseApp, h]
  · intro cfg s
    rfl
  · intro inc fuel now s h
    rcases h with h | h <;> simp [scheduleNoteApp, h]

theorem transport_invalid_noops_witness :
    startApp ⟨60, 5⟩ 0 0 ⟨true, false, true, true, true, freshSched 60 0, -1, 60, 0, 0, 0, 0⟩
      = ⟨true, false, true, true, true, freshSched 60 0, -1, 60, 0, 0, 0, 0⟩ ∧
    pauseApp ⟨false, false, false, false, false, freshSched 60 0, -1, 60, 0, 0, 0, 0⟩
      = ⟨false, false, false, false, false, freshSched 60 0, -1, 60, 0, 0, 0, 0⟩ ∧
    scheduleNoteApp 5 3 0 ⟨true, true, true, false, false, freshSched 60 0, -1, 60, 0, 0, 0, 0⟩
      = (⟨true, true, true, false, false, freshSched 60 0, -1, 60, 0, 0, 0, 0⟩, []) :=
  ⟨transport_invalid_noops.1 ⟨60, 5⟩ 0 0 _ rfl rfl,
   transport_invalid_noops.2.1 _ (Or.inl rfl),
   transport_invalid_noops.2.2.2 5 3 0 _ (Or.inl rfl)⟩

/-- Claim C10: every deferred UI update the scheduler enqueues re-checks
the playing flag when it fires; after stop() no pending deferred
callback changes any state — stale callbacks are dropped, never
applied. -/
theorem deferred_noop_after_stop (cfg : Config) (s : AppState) (u : Deferred) :
    fireDeferred u (stopApp cfg s) = stopApp cfg s := by
  simp [fireDeferred, stopApp]

/-- Claim C9: for every integer start BPM supplied to start(), including
values outside [1, 300], playback begins with current BPM equal to
min(max(startBpm, 1), 300), hence always within [1, 300]. -/
theorem start_clamps_bpm (sb : Int) (inc : Nat) (now fn : ℚ) (s : AppState)
    (h1 : s.isPlaying = false) (h2 : s.isPaused = false) :
    ((startApp ⟨sb, inc⟩ now fn s).sched.bpm : Int) = min (max sb 1) 300 ∧
    1 ≤ (startApp ⟨sb, inc⟩ now fn s).sched.bpm ∧
    (startApp ⟨sb, inc⟩ now fn s).sched.bpm ≤ MAX_BPM := by
  have hg : (s.isPlaying && !s.isPaused) = false := by rw [h1]; rfl
  have hg2 : (s.isPaused && s.hasCtx) = false := by rw [h2]; rfl
  unfold startApp
  rw [hg, if_neg (by simp), hg2, if_neg (by simp)]
  refine ⟨?_, ?_, ?_⟩ <;>
    simp only [freshSched, clampBpm, MAX_BPM] <;> omega

theorem start_clamps_bpm_witness :
    ((startApp ⟨500, 5⟩ 0 0 ⟨false, false, false, false, false,
        freshSched 60 0, -1, 60, 0, 0, 0, 0⟩).sched.bpm : Int) = min (max 500 1) 300 :=
  (start_clamps_bpm 500 5 0 0 _ rfl rfl).1

/-- Claim C8: while playing and not paused, each render frame advances
the visual phase by exactly frameDelta * unitsPerCycle * bpm / 60000
with unitsPerCycle = 24 (the ECG wave length), so the phase is
monotonically non-decreasing; the phase is reset to 0 on a fresh start
and stops advancing while paused. -/
theorem waveform_phase_step (s : AppState) (now : ℚ) :
    ECG_WAVE.length = 24 ∧
    (s.isPlaying = true → s.isPaused = false →
      (animateWaveformStep now s).wavePhase
          = s.wavePhase + (now - s.lastFrameTime) * ((24 * (s.sched.bpm : ℚ)) / 60000) ∧
      (s.lastFrameTime ≤ now → s.wavePhase ≤ (animateWaveformStep now s).wavePhase)) ∧
    (s.isPaused = true → animateWaveformStep now s = s) ∧
    (∀ (cfg : Config) (now2 fn : ℚ) (t : AppState),
        t.isPlaying = false → t.isPaused = false →
        (startApp cfg now2 fn t).wavePhase = 0) := by
  refine ⟨rfl, ?_, ?_, ?_⟩
  · intro hp hq
    have hstep : (animateWaveformStep now s).wavePhase
        = s.wavePhase + (now - s.lastFrameTime) * ((24 * (s.sched.bpm : ℚ)) / 60000) := by
      simp [animateWaveformStep, hp, hq]
      norm_num [ECG_WAVE]
    refine ⟨hstep, ?_⟩
    intro hle
    rw [hstep]
    have : 0 ≤ (now - s.lastFrameTime) * ((24 * (s.sched.bpm : ℚ)) / 60000) := by
      apply mul_nonneg (by linarith) (by positivity)
    linarith
  · intro hq
    simp [animateWaveformStep, hq]
  · intro cfg now2 fn t h1 h2
    have hg : (t.isPlaying && !t.isPaused) = false := by rw [h1]; rfl
    have hg2 : (t.isPaused && t.hasCtx) = false := by rw [h2]; rfl
    unfold startApp
    rw [hg, if_neg (by simp), hg2, if_neg (by simp)]

theorem waveform_phase_step_witness :
    (animateWaveformStep 2 ⟨true, false, true, true, true, freshSched 60 0, -1, 60, 0, 0, 0, 0⟩).wavePhase
        = 0 + (2 - 0) * ((24 * ((60 : Nat) : ℚ)) / 60000) ∧
    (0 : ℚ) ≤ (animateWaveformStep 2 ⟨true, false, true, true, true,
        freshSched 60 0, -1, 60, 0, 0, 0, 0⟩).wavePhase :=
  ⟨((waveform_phase_step _ 2).2.1 rfl rfl).1,
   ((waveform_phase_step _ 2).2.1 rfl rfl).2 (by norm_num)⟩

/-! ### Counter invariant and run lemmas -/

theorem schedTick_fst_currentBeat (inc : Nat) (s : SchedState) :
    (schedTick inc s).1.currentBeat = (advanceRefs inc s).currentBeat := rfl

theorem schedTick_fst_measureInCycle (inc : Nat) (s : SchedState) :
    (schedTick inc s).1.measureInCycle = (advanceRefs inc s).measureInCycle := rfl

theorem schedTick_fst_totalMeasures (inc : Nat) (s : SchedState) :
    (schedTick inc s).1.totalMeasures = (advanceRefs inc s).totalMeasures := rfl

theorem advanceRefs_inv (inc : Nat) (s : SchedState)
    (h1 : s.currentBeat < BEATS_PER_MEASURE) (h2 : s.measureInCycle < MEASURES_PER_BUMP)
    (h3 : s.measureInCycle = s.totalMeasures % MEASURES_PER_BUMP) :
    (advanceRefs inc s).currentBeat < BEATS_PER_MEASURE ∧
    (advanceRefs inc s).measureInCycle < MEASURES_PER_BUMP ∧
    (advanceRefs inc s).measureInCycle
      = (advanceRefs inc s).totalMeasures % MEASURES_PER_BUMP := by
  simp only [BEATS_PER_MEASURE, MEASURES_PER_BUMP] at h1 h2 h3 ⊢
  unfold advanceRefs BEATS_PER_MEASURE MEASURES_PER_BUMP
  split
  · split
    · refine ⟨?_, ?_, ?_⟩ <;> dsimp only <;> omega
    · refine ⟨?_, ?_, ?_⟩ <;> dsimp only <;> omega
  · refine ⟨?_, ?_, ?_⟩ <;> dsimp only <;> omega

theorem runTicks_inv (inc b0 : Nat) (t0 : ℚ) (n : Nat) :
    (runTicks inc (freshSched b0 t0) n).currentBeat < BEATS_PER_MEASURE ∧
    (runTicks inc (freshSched b0 t0) n).measureInCycle < MEASURES_PER_BUMP ∧
    (runTicks inc (freshSched b0 t0) n).measureInCycle
      = (runTicks inc (freshSched b0 t0) n).totalMeasures % MEASURES_PER_BUMP := by
  induction n with
  | zero =>
      refine ⟨?_, ?_, ?_⟩ <;>
        simp [runTicks, freshSched, BEATS_PER_MEASURE, MEASURES_PER_BUMP]
  | succ n ih =>
      have e : runTicks inc (freshSched b0 t0) (n + 1)
          = (schedTick inc (runTicks inc (freshSched b0 t0) n)).1 := rfl
      rw [e, schedTick_fst_currentBeat, schedTick_fst_measureInCycle,
          schedTick_fst_totalMeasures]
      exact advanceRefs_inv inc _ ih.1 ih.2.1 ih.2.2

theorem bumpFires_iff_of_inv (s : SchedState)
    (h1 : s.currentBeat < BEATS_PER_MEASURE) (h2 : s.measureInCycle < MEASURES_PER_BUMP)
    (h3 : s.measureInCycle = s.totalMeasures % MEASURES_PER_BUMP) :
    bumpFires s ↔
      s.currentBeat + 1 = BEATS_PER_MEASURE ∧
      (s.totalMeasures + 1) % MEASURES_PER_BUMP = 0 := by
  unfold bumpFires
  simp only [BEATS_PER_MEASURE, MEASURES_PER_BUMP] at *
  omega

theorem runTicks_first_bar (inc b0 : Nat) (t0 : ℚ) (n : Nat) (hn : n < 4) :
    (runTicks inc (freshSched b0 t0) n).currentBeat = n ∧
    (runTicks inc (freshSched b0 t0) n).totalMeasures = 0 := by
  interval_cases n <;> exact ⟨rfl, rfl⟩

theorem runTicks_bpm_le (inc : Nat) (s : SchedState) (h : s.bpm ≤ MAX_BPM) (n : Nat) :
    (runTicks inc s n).bpm ≤ MAX_BPM := by
  induction n with
  | zero => exact h
  | succ n ih =>
      have e : runTicks inc s (n + 1) = (schedTick inc (runTicks inc s n)).1 := rfl
      rw [e, schedTick_fst_bpm]
      exact (advanceRefs_bpm_bounds inc _ ih).2

theorem runTicks_bpm_mono (inc : Nat) (s : SchedState) (h : s.bpm ≤ MAX_BPM)
    (n m : Nat) (hnm : n ≤ m) : (runTicks inc s n).bpm ≤ (runTicks inc s m).bpm := by
  induction m with
  | zero =>
      have : n = 0 := by omega
      subst this
      exact le_refl _
  | succ m ih =>
      by_cases hn : n = m + 1
      · subst hn; exact le_refl _
      · have hle : n ≤ m := by omega
        have step : (runTicks inc s m).bpm ≤ (runTicks inc s (m + 1)).bpm := by
          have e : runTicks inc s (m + 1) = (schedTick inc (runTicks inc s m)).1 := rfl
          rw [e, schedTick_fst_bpm]
          exact (advanceRefs_bpm_bounds inc _ (runTicks_bpm_le inc s h m)).1
        exact le_trans (ih hle) step

theorem emitTime_step (inc : Nat) (s : SchedState) (n : Nat) :
    emitTime inc s (n + 1)
      = emitTime inc s n + 60 / ((runTicks inc s (n + 1)).bpm : ℚ) := rfl

/-! ### Claims C1, C2, C3, C5 -/

/-- Claim C1: from a fresh start, the count-based tempo bump fires
exactly when the beat counter wraps (end of a bar, never mid-bar) into a
bar whose total-bars-elapsed count is a positive multiple of
MEASURES_PER_BUMP = 4; it never fires during the very first bar, and
each firing raises the BPM by the configured increment clamped at
MAX_BPM = 300. -/
theorem count_bump_at_bar_wrap (inc b0 : Nat) (t0 : ℚ) (n : Nat) :
    (bumpFires (runTicks inc (freshSched b0 t0) n) ↔
       (runTicks inc (freshSched b0 t0) n).currentBeat + 1 = BEATS_PER_MEASURE ∧
       ((runTicks inc (freshSched b0 t0) n).totalMeasures + 1) % MEASURES_PER_BUMP = 0 ∧
       0 < (runTicks inc (freshSched b0 t0) n).totalMeasures + 1) ∧
    (n < 4 → ¬ bumpFires (runTicks inc (freshSched b0 t0) n)) ∧
    (bumpFires (runTicks inc (freshSched b0 t0) n) →
       (runTicks inc (freshSched b0 t0) (n + 1)).bpm
         = min ((runTicks inc (freshSched b0 t0) n).bpm + inc) MAX_BPM) ∧
    (¬ bumpFires (runTicks inc (freshSched b0 t0) n) →
       (runTicks inc (freshSched b0 t0) (n + 1)).bpm
         = (runTicks inc (freshSched b0 t0) n).bpm) := by
  have hInv := runTicks_inv inc b0 t0 n
  have hiff := bumpFires_iff_of_inv _ hInv.1 hInv.2.1 hInv.2.2
  refine ⟨?_, ?_, ?_, ?_⟩
  · constructor
    · intro hbump
      exact ⟨(hiff.mp hbump).1, (hiff.mp hbump).2, Nat.succ_pos _⟩
    · rintro ⟨ha, hb, -⟩
      exact hiff.mpr ⟨ha, hb⟩
  · intro hn hbump
    obtain ⟨hbeat, htm⟩ := runTicks_first_bar inc b0 t0 n hn
    have := hiff.mp hbump
    rw [hbeat, htm] at this
    simp only [BEATS_PER_MEASURE, MEASURES_PER_BUMP] at this
    omega
  · intro hbump
    have e : runTicks inc (freshSched b0 t0) (n + 1)
        = (schedTick inc (runTicks inc (freshSched b0 t0) n)).1 := rfl
    rw [e, schedTick_fst_bpm]
    exact advanceRefs_bpm_of_bump inc _ hbump
  · intro hbump
    have e : runTicks inc (freshSched b0 t0) (n + 1)
        = (schedTick inc (runTicks inc (freshSched b0 t0) n)).1 := rfl
    rw [e, schedTick_fst_bpm]
    exact advanceRefs_bpm_of_not_bump inc _ hbump

theorem count_bump_at_bar_wrap_witness :
    bumpFires (runTicks 5 (freshSched 60 0) 15) ∧
    (runTicks 5 (freshSched 60 0) 16).bpm
      = min ((runTicks 5 (freshSched 60 0) 15).bpm + 5) MAX_BPM :=
  ⟨(count_bump_at_bar_wrap 5 60 0 15).1.mpr (by decide),
   (count_bump_at_bar_wrap 5 60 0 15).2.2.1
     ((count_bump_at_bar_wrap 5 60 0 15).1.mpr (by decide))⟩

/-- Claim C2 counterexample: with bars-per-cycle = 4 and increment = 5,
starting at 60 BPM, after 4 complete bars (16 scheduled beats) the
current BPM is already 65, not 60 — the bump fires while the last beat
of the 4th bar is scheduled, not at the following downbeat. -/
theorem c2_after_four_bars_cex :
    (runTicks 5 (freshSched 60 0) 16).bpm = 65 ∧
    (runTicks 5 (freshSched 60 0) 16).bpm ≠ 60 := by decide

/-- Claim C2 (amended): with bars-per-cycle = 4 and increment = 5,
starting at 60 BPM, no bump fires during bar 0 (after the first
complete bar the BPM is still 60), and after 4, 8 and 12 complete bars
the current BPM is 65, 70 and 75 — each cycle bump has already fired
during the scheduling of the last beat of the cycle. -/
theorem c2_after_four_bars_amended :
    (runTicks 5 (freshSched 60 0) 4).bpm = 60 ∧
    (runTicks 5 (freshSched 60 0) 16).bpm = 65 ∧
    (runTicks 5 (freshSched 60 0) 32).bpm = 70 ∧
    (runTicks 5 (freshSched 60 0) 48).bpm = 75 := by decide

/-- Claim C3: from a fresh start with a valid start BPM, the BPM is
monotonically non-decreasing across scheduler iterations and never
exceeds MAX_BPM = 300; once it reaches 300 it stays at 300; a bump that
would push it above 300 sets it to exactly 300; and stop() resets the
displayed BPM to the configured start value. -/
theorem bpm_monotone_clamped (inc b0 : Nat) (t0 : ℚ) (n m : Nat)
    (hb : b0 ≤ MAX_BPM) (hnm : n ≤ m) :
    (runTicks inc (freshSched b0 t0) n).bpm ≤ (runTicks inc (freshSched b0 t0) m).bpm ∧
    (runTicks inc (freshSched b0 t0) m).bpm ≤ MAX_BPM ∧
    ((runTicks inc (freshSched b0 t0) n).bpm = MAX_BPM →
       (runTicks inc (freshSched b0 t0) m).bpm = MAX_BPM) ∧
    (∀ s : SchedState, bumpFires s → MAX_BPM ≤ s.bpm + inc →
       (schedTick inc s).1.bpm = MAX_BPM) ∧
    (∀ (cfg : Config) (s : AppState), (stopApp cfg s).dispBpm = cfg.startBpm) := by
  have hfresh : (freshSched b0 t0).bpm ≤ MAX_BPM := hb
  have hmono := runTicks_bpm_mono inc _ hfresh n m hnm
  have hle := runTicks_bpm_le inc _ hfresh m
  refine ⟨hmono, hle, ?_, ?_, ?_⟩
  · intro h300
    omega
  · intro s hbump hge
    rw [schedTick_fst_bpm, advanceRefs_bpm_of_bump inc s hbump]
    omega
  · intro cfg s
    rfl

theorem bpm_monotone_clamped_witness :
    (runTicks 10 (freshSched 290 0) 3).bpm ≤ (runTicks 10 (freshSched 290 0) 40).bpm ∧
    (runTicks 10 (freshSched 290 0) 40).bpm ≤ MAX_BPM :=
  ⟨(bpm_monotone_clamped 10 290 0 3 40 (by decide) (by decide)).1,
   (bpm_monotone_clamped 10 290 0 3 40 (by decide) (by decide)).2.1⟩

/-- Claim C5 counterexample: with increment 5 from 60 BPM, the bump of
the first cycle fires during iteration 15 (last beat of bar 3), not on
the cycle-start tick 16; the interval leading INTO the cycle-start tick
is 60/65 — already at the NEW tempo — and not 60/60 as the claim
states. -/
theorem bump_timing_cex :
    bumpFires (runTicks 5 (freshSched 60 0) 15) ∧
    ¬ bumpFires (runTicks 5 (freshSched 60 0) 16) ∧
    (runTicks 5 (freshSched 60 0) 16).currentBeat = 0 ∧
    (runTicks 5 (freshSched 60 0) 16).measureInCycle = 0 ∧
    (runTicks 5 (freshSched 60 0) 16).totalMeasures = 4 ∧
    emitTime 5 (freshSched 60 0) 16 - emitTime 5 (freshSched 60 0) 15 = 60 / 65 ∧
    (60 : ℚ) / 65 ≠ 60 / 60 := by
  refine ⟨by decide, by decide, by decide, by decide, by decide, ?_, by norm_num⟩
  rw [show (16 : Nat) = 15 + 1 from rfl, emitTime_step]
  have hb : (runTicks 5 (freshSched 60 0) (15 + 1)).bpm = 65 := by decide
  rw [hb]
  ring

/-- Claim C5 (amended): already-emitted timestamps are never changed
retroactively, and the spacing of the interval that leaves the tick
scheduled in iteration n is 60 / (BPM after iteration n): when a bump
fires in iteration n (the wrap into the new cycle), the very next
interval — the one leading into the cycle-start downbeat — is already at
the new tempo, while the interval entering the bump tick kept the old
tempo; when no bump fires the spacing keeps the current tempo. -/
theorem bump_affects_next_interval (inc b0 : Nat) (t0 : ℚ) (n : Nat) :
    emitTime inc (freshSched b0 t0) (n + 1) - emitTime inc (freshSched b0 t0) n
      = 60 / (((runTicks inc (freshSched b0 t0) (n + 1)).bpm : ℚ)) ∧
    (bumpFires (runTicks inc (freshSched b0 t0) n) →
       (runTicks inc (freshSched b0 t0) (n + 1)).bpm
         = min ((runTicks inc (freshSched b0 t0) n).bpm + inc) MAX_BPM) ∧
    (¬ bumpFires (runTicks inc (freshSched b0 t0) n) →
       (runTicks inc (freshSched b0 t0) (n + 1)).bpm
         = (runTicks inc (freshSched b0 t0) n).bpm) := by
  have e : runTicks inc (freshSched b0 t0) (n + 1)
      = (schedTick inc (runTicks inc (freshSched b0 t0) n)).1 := rfl
  refine ⟨?_, ?_, ?_⟩
  · rw [emitTime_step]
    ring
  · intro hbump
    rw [e, schedTick_fst_bpm]
    exact advanceRefs_bpm_of_bump inc _ hbump
  · intro hbump
    rw [e, schedTick_fst_bpm]
    exact advanceRefs_bpm_of_not_bump inc _ hbump

theorem bump_affects_next_interval_witness :
    emitTime 5 (freshSched 60 0) 16 - emitTime 5 (freshSched 60 0) 15
      = 60 / (((runTicks 5 (freshSched 60 0) 16).bpm : ℚ)) ∧
    (runTicks 5 (freshSched 60 0) 16).bpm
      = min ((runTicks 5 (freshSched 60 0) 15).bpm + 5) MAX_BPM :=
  ⟨(bump_affects_next_interval 5 60 0 15).1,
   (bump_affects_next_interval 5 60 0 15).2.1 (by decide)⟩

/-! ### Arithmetic progression of emitted timestamps (claim C4) -/

theorem arithSeq_append (d : ℚ) (j k : Nat) (t0 : ℚ) :
    arithSeq t0 d j ++ arithSeq (t0 + (j : ℚ) * d) d k = arithSeq t0 d (j + k) := by
  induction j generalizing t0 with
  | zero => simp [arithSeq]
  | succ j ih =>
      have hc : t0 + ((j + 1 : Nat) : ℚ) * d = (t0 + d) + (j : ℚ) * d := by
        push_cast
        ring
      rw [Nat.succ_add]
      simp only [arithSeq, List.cons_append]
      rw [hc, ih (t0 + d)]

theorem arithSeq_chain (d : ℚ) (hd : 0 < d) (k : Nat) (t0 : ℚ) :
    List.Chain' (fun a b : ℚ => a < b ∧ b - a = d) (arithSeq t0 d k) := by
  induction k generalizing t0 with
  | zero => simp [arithSeq]
  | succ k ih =>
      cases k with
      | zero => simp [arithSeq]
      | succ m =>
          simp only [arithSeq, List.chain'_cons]
          refine ⟨⟨by linarith, by ring⟩, ?_⟩
          have h := ih (t0 + d)
          simpa only [arithSeq] using h

theorem schedLoop_halt (inc : Nat) (now : ℚ) (fuel : Nat) (s : SchedState)
    (h : ¬ s.nextNoteTime < now + lookahead) : schedLoop inc now fuel s = (s, []) := by
  cases fuel with
  | zero => rfl
  | succ f => simp [schedLoop, h]

theorem schedLoop_succ_of_lt (inc : Nat) (now : ℚ) (f : Nat) (s : SchedState)
    (hlt : s.nextNoteTime < now + lookahead) :
    schedLoop inc now (f + 1) s
      = ((schedLoop inc now f (schedTick inc s).1).1,
         (schedTick inc s).2 :: (schedLoop inc now f (schedTick inc s).1).2) := by
  simp [schedLoop, hlt]

theorem schedLoop_bpm (inc : Nat) (now : ℚ) (fuel : Nat) :
    ∀ s : SchedState, s.bpm ≤ MAX_BPM →
      s.bpm ≤ (schedLoop inc now fuel s).1.bpm ∧
      (schedLoop inc now fuel s).1.bpm ≤ MAX_BPM := by
  induction fuel with
  | zero => intro s h; exact ⟨le_refl _, h⟩
  | succ f ih =>
      intro s h
      by_cases hlt : s.nextNoteTime < now + lookahead
      · rw [schedLoop_succ_of_lt inc now f s hlt]
        have hb := advanceRefs_bpm_bounds inc s h
        have hrec := ih (schedTick inc s).1 (by rw [schedTick_fst_bpm]; exact hb.2)
        constructor
        · exact le_trans (by rw [schedTick_fst_bpm]; exact hb.1) hrec.1
        · exact hrec.2
      · rw [schedLoop_halt inc now (f + 1) s hlt]
        exact ⟨le_refl _, h⟩

theorem schedLoop_const_bpm (inc : Nat) (now : ℚ) (B : Nat) (hB : B ≤ MAX_BPM) (fuel : Nat) :
    ∀ s : SchedState, s.bpm = B → (schedLoop inc now fuel s).1.bpm = B →
      (schedLoop inc now fuel s).2.map Click.time
        = arithSeq s.nextNoteTime (60 / (B : ℚ)) (schedLoop inc now fuel s).2.length ∧
      (schedLoop inc now fuel s).1.nextNoteTime
        = s.nextNoteTime + ((schedLoop inc now fuel s).2.length : ℚ) * (60 / (B : ℚ)) := by
  induction fuel with
  | zero =>
      intro s hs hf
      exact ⟨rfl, by simp [schedLoop]⟩
  | succ f ih =>
      intro s hs hf
      by_cases hlt : s.nextNoteTime < now + lookahead
      · rw [schedLoop_succ_of_lt inc now f s hlt] at hf ⊢
        dsimp only at hf ⊢
        have hsb : s.bpm ≤ MAX_BPM := by rw [hs]; exact hB
        have hb := advanceRefs_bpm_bounds inc s hsb
        have hmid := schedLoop_bpm inc now f (schedTick inc s).1
          (by rw [schedTick_fst_bpm]; exact hb.2)
        have htick : (schedTick inc s).1.bpm = B := by
          have h1 : s.bpm ≤ (schedTick inc s).1.bpm := by
            rw [schedTick_fst_bpm]; exact hb.1
          omega
        have hrec := ih (schedTick inc s).1 htick hf
        have hcur : (schedTick inc s).1.nextNoteTime = s.nextNoteTime + 60 / (B : ℚ) := by
          rw [schedTick_fst_nextNoteTime, htick]
        constructor
        · show s.nextNoteTime :: (schedLoop inc now f (schedTick inc s).1).2.map Click.time
            = arithSeq s.nextNoteTime (60 / (B : ℚ))
                ((schedTick inc s).2 :: (schedLoop inc now f (schedTick inc s).1).2).length
          rw [hrec.1, hcur, List.length_cons]
          rfl
        · show (schedLoop inc now f (schedTick inc s).1).1.nextNoteTime
            = s.nextNoteTime
              + (((schedTick inc s).2 :: (schedLoop inc now f (schedTick inc s).1).2).length : ℚ)
                * (60 / (B : ℚ))
          rw [hrec.2, hcur, List.length_cons]
          push_cast
          ring
      · rw [schedLoop_halt inc now (f + 1) s hlt]
        exact ⟨rfl, by simp⟩

theorem runWakes_succ (inc fuel : Nat) (now : ℚ) (rest : List ℚ) (s : SchedState) :
    runWakes inc fuel (now :: rest) s
      = ((runWakes inc fuel rest (schedLoop inc now fuel s).1).1,
         (schedLoop inc now fuel s).2
           ++ (runWakes inc fuel rest (schedLoop inc now fuel s).1).2) := rfl

theorem runWakes_bpm (inc fuel : Nat) :
    ∀ (nows : List ℚ) (s : SchedState), s.bpm ≤ MAX_BPM →
      s.bpm ≤ (runWakes inc fuel nows s).1.bpm ∧
      (runWakes inc fuel nows s).1.bpm ≤ MAX_BPM := by
  intro nows
  induction nows with
  | nil => intro s h; exact ⟨le_refl _, h⟩
  | cons now rest ih =>
      intro s h
      rw [runWakes_succ]
      have hl := schedLoop_bpm inc now fuel s h
      have hrec := ih (schedLoop inc now fuel s).1 hl.2
      exact ⟨le_trans hl.1 hrec.1, hrec.2⟩

theorem runWakes_const_bpm (inc fuel : Nat) (B : Nat) (hB : B ≤ MAX_BPM) :
    ∀ (nows : List ℚ) (s : SchedState), s.bpm = B → (runWakes inc fuel nows s).1.bpm = B →
      (runWakes inc fuel nows s).2.map Click.time
        = arithSeq s.nextNoteTime (60 / (B : ℚ)) (runWakes inc fuel nows s).2.length ∧
      (runWakes inc fuel nows s).1.nextNoteTime
        = s.nextNoteTime + ((runWakes inc fuel nows s).2.length : ℚ) * (60 / (B : ℚ)) := by
  intro nows
  induction nows with
  | nil => intro s hs hf; exact ⟨rfl, by simp [runWakes]⟩
  | cons now rest ih =>
      intro s hs hf
      rw [runWakes_succ] at hf ⊢
      dsimp only at hf ⊢
      have hsb : s.bpm ≤ MAX_BPM := by rw [hs]; exact hB
      have hl := schedLoop_bpm inc now fuel s hsb
      have hw := runWakes_bpm inc fuel rest (schedLoop inc now fuel s).1 hl.2
      have hmid : (schedLoop inc now fuel s).1.bpm = B := by
        have h1 := hl.1
        have h2 := hw.1
        omega
      have h1 := schedLoop_const_bpm inc now B hB fuel s hs hmid
      have h2 := ih (schedLoop inc now fuel s).1 hmid hf
      constructor
      · rw [List.map_append, List.length_append, h1.1, h2.1, h1.2]
        exact arithSeq_append (60 / (B : ℚ)) _ _ s.nextNoteTime
      · rw [h2.2, h1.2, List.length_append]
        push_cast
        ring

/-- Claim C4: for every BPM B in [1, 300] held constant across a run
(the initial and final BPM both equal B; the BPM is monotone, so it is B
throughout), and for every sequence of scheduler wake-ups, the emitted
click timestamps are strictly increasing and consecutive timestamps
differ by exactly 60 / (B * subdivisionsPerBeat) with
subdivisionsPerBeat = 1 — the source schedules whole beats only. -/
theorem click_spacing_exact (B inc fuel : Nat) (nows : List ℚ) (s : SchedState)
    (h1 : 1 ≤ B) (h2 : B ≤ MAX_BPM) (h3 : s.bpm = B)
    (h4 : (runWakes inc fuel nows s).1.bpm = B) :
    List.Chain' (fun a b : ℚ => a < b ∧ b - a = 60 / ((B : ℚ) * 1))
      ((runWakes inc fuel nows s).2.map Click.time) := by
  have hBpos : (0 : ℚ) < (B : ℚ) := by exact_mod_cast h1
  have hd : 0 < 60 / (B : ℚ) := by positivity
  have h := runWakes_const_bpm inc fuel B h2 nows s h3 h4
  rw [h.1]
  have hch := arithSeq_chain (60 / (B : ℚ)) hd
      (runWakes inc fuel nows s).2.length s.nextNoteTime
  simpa only [mul_one] using hch

theorem click_spacing_exact_witness :
    List.Chain' (fun a b : ℚ => a < b ∧ b - a = 60 / (((60 : Nat) : ℚ) * 1))
      ((runWakes 5 2 [0, 1] (freshSched 60 0)).2.map Click.time) :=
  click_spacing_exact 60 5 2 [0, 1] (freshSched 60 0) (by decide) (by decide) rfl
    (by norm_num [runWakes, schedLoop, schedTick, advanceRefs, freshSched, lookahead,
          BEATS_PER_MEASURE, MEASURES_PER_BUMP, MAX_BPM])

/-! ### Resume re-anchoring (claim C6) -/

theorem schedLoop_single (inc : Nat) (now : ℚ) (f : Nat) (s : SchedState)
    (hcur : s.nextNoteTime = now) (hb1 : 1 ≤ s.bpm) (hb2 : s.bpm ≤ MAX_BPM) :
    schedLoop inc now (f + 1) s = ((schedTick inc s).1, [(schedTick inc s).2]) := by
  have hlt : s.nextNoteTime < now + lookahead := by
    rw [hcur]
    unfold lookahead
    linarith
  rw [schedLoop_succ_of_lt inc now f s hlt]
  have hbp1 : 1 ≤ (schedTick inc s).1.bpm := by
    rw [schedTick_fst_bpm]
    exact advanceRefs_bpm_pos inc s hb1
  have hbp2 : (schedTick inc s).1.bpm ≤ MAX_BPM := by
    rw [schedTick_fst_bpm]
    exact (advanceRefs_bpm_bounds inc s hb2).2
  have hstep : ¬ (schedTick inc s).1.nextNoteTime < now + lookahead := by
    rw [schedTick_fst_nextNoteTime, hcur]
    have hbposQ : (0 : ℚ) < ((schedTick inc s).1.bpm : ℚ) := by exact_mod_cast hbp1
    have hbleQ : ((schedTick inc s).1.bpm : ℚ) ≤ 300 := by
      have h := hbp2
      unfold MAX_BPM at h
      exact_mod_cast h
    have hkey : (1 : ℚ) / 10 ≤ 60 / ((schedTick inc s).1.bpm : ℚ) := by
      rw [div_le_div_iff₀ (by norm_num) hbposQ]
      linarith
    unfold lookahead
    intro hcon
    linarith
  rw [schedLoop_halt inc now f _ hstep]

/-- Claim C6: resuming from pause re-anchors the scheduler cursor to the
current audio-clock time, never a stale cursor; the wake-up that follows
(even after an arbitrarily long stall while paused) emits exactly one
click, timestamped at the current audio-clock time — no burst of
backlog events, and every emitted timestamp is at or after the clock. -/
theorem scheduleNoteApp_snd (inc fuel : Nat) (now : ℚ) (t : AppState)
    (h1 : t.hasCtx = true) (h2 : t.isPaused = false) :
    (scheduleNoteApp inc fuel now t).2 = (schedLoop inc now fuel t.sched).2 := by
  simp [scheduleNoteApp, h1, h2]

theorem resume_reanchors (cfg : Config) (inc : Nat) (s : AppState) (now fn : ℚ) (fuel : Nat)
    (hp : s.isPaused = true) (hc : s.hasCtx = true)
    (hb1 : 1 ≤ s.sched.bpm) (hb2 : s.sched.bpm ≤ MAX_BPM) (hf : 1 ≤ fuel) :
    (startApp cfg now fn s).sched.nextNoteTime = now ∧
    (scheduleNoteApp inc fuel now (startApp cfg now fn s)).2.map Click.time = [now] ∧
    ∀ c ∈ (scheduleNoteApp inc fuel now (startApp cfg now fn s)).2, now ≤ c.time := by
  obtain ⟨f, rfl⟩ : ∃ f, fuel = f + 1 := ⟨fuel - 1, by omega⟩
  have hstart : startApp cfg now fn s
      = { s with isPaused := false,
                 sched := { s.sched with nextNoteTime := now },
                 lastFrameTime := fn } := by
    simp [startApp, hp, hc]
  have hctx1 : (startApp cfg now fn s).hasCtx = true := by
    rw [hstart]; exact hc
  have hpau1 : (startApp cfg now fn s).isPaused = false := by
    rw [hstart]
  have hsched1 : (startApp cfg now fn s).sched = { s.sched with nextNoteTime := now } := by
    rw [hstart]
  have hone := schedLoop_single inc now f { s.sched with nextNoteTime := now } rfl hb1 hb2
  have hclicks : (scheduleNoteApp inc (f + 1) now (startApp cfg now fn s)).2
      = [(schedTick inc { s.sched with nextNoteTime := now }).2] := by
    rw [scheduleNoteApp_snd inc (f + 1) now _ hctx1 hpau1, hsched1, hone]
  refine ⟨by rw [hsched1], ?_, ?_⟩
  · rw [hclicks]
    rfl
  · intro c hcmem
    rw [hclicks] at hcmem
    simp only [List.mem_singleton] at hcmem
    subst hcmem
    exact le_of_eq rfl

theorem resume_reanchors_witness :
    (startApp ⟨60, 5⟩ 7 7
        ⟨true, true, true, false, false, freshSched 60 2, -1, 60, 0, 0, 0, 0⟩).sched.nextNoteTime
      = 7 ∧
    (scheduleNoteApp 5 3 7 (startApp ⟨60, 5⟩ 7 7
        ⟨true, true, true, false, false, freshSched 60 2, -1, 60, 0, 0, 0, 0⟩)).2.map Click.time
      = [7] :=
  ⟨(resume_reanchors ⟨60, 5⟩ 5 _ 7 7 3 rfl rfl (by decide) (by decide) (by decide)).1,
   (resume_reanchors ⟨60, 5⟩ 5 _ 7 7 3 rfl rfl (by decide) (by decide) (by decide)).2.1⟩

end CodyBPM

